import Mathlib

/-!
Verification development for the AppleScript-bridge result-processing core of
the `apple-mcp` repository (files `src/utils/notes.ts` — which concatenates the
notes, calendar and reminders modules — and `src/utils/mail.ts`).

The TypeScript source is shallowly embedded:
* JavaScript values returned by the bridge parser become the inductive
  `ASValue` (the source's `AppleScriptValue` union).
* JavaScript numbers are modelled as exact decimals (`JSNumber`, a mantissa and
  a power-of-ten scale) plus a separate `nan` constructor of `ASValue`; the
  model is exact on the finite decimal literals produced by the bridge grammar
  and ignores binary floating-point rounding and exponent/hex string forms.
* JavaScript `Date` values are modelled by their integer millisecond time value;
  `Date.prototype.toISOString` and `Date.parse` are modelled by an executable
  proleptic-Gregorian converter restricted to the `YYYY-MM-DDTHH:MM:SS.sssZ`
  shape that the code itself produces.
* The parser class keeps a cursor into the input string; the embedding passes
  the remaining input (`List Char`) explicitly and uses a fuel parameter for
  the mutual recursion; `throw new Error(...)` becomes `Except.error`.
* `Array.prototype.sort` with a key-difference comparator is a stable sort by
  that key; it is modelled by `List.insertionSort`, which is stable.
* Whitespace (`/\s/`, `String.prototype.trim`) is modelled on the ASCII
  whitespace characters.
-/

/-- ASCII model of the JavaScript `\s` character class used by
`isWhitespaceChar` in `AppleScriptSourceParser` and by `String.prototype.trim`. -/
def jsIsSpace (c : Char) : Bool :=
  c = ' ' ∨ c = '\t' ∨ c = '\n' ∨ c = '\r' ∨ c = '\x0b' ∨ c = '\x0c'

/-- A finite JavaScript number, modelled exactly as `m / 10 ^ e`. -/
structure JSNumber where
  m : Int
  e : Nat
  deriving Repr, DecidableEq

/-- Strip factors of ten shared by the mantissa and the scale, so that the
printed form has no trailing fractional zeros (as JavaScript's canonical
number-to-string conversion does on decimal values). -/
def stripTenFactors : Int → Nat → Int × Nat
  | m, 0 => (m, 0)
  | m, e + 1 => if m % 10 = 0 then stripTenFactors (m / 10) e else (m, e + 1)

/-- Model of JavaScript's canonical number formatting (`String(n)`) on exact
decimals: minus sign, integer digits, and a fractional part without trailing
zeros.  Exponent notation for very large or small magnitudes is not modelled. -/
def numToString (q : JSNumber) : String :=
  let p := stripTenFactors q.m q.e
  let sign := if p.1 < 0 then "-" else ""
  let digits := Nat.repr p.1.natAbs
  if p.2 = 0 then
    sign ++ digits
  else if digits.length ≤ p.2 then
    sign ++ "0." ++ String.mk (List.replicate (p.2 - digits.length) '0') ++ digits
  else
    sign ++ String.mk (digits.toList.take (digits.length - p.2)) ++ "." ++
      String.mk (digits.toList.drop (digits.length - p.2))

/-- The source's `AppleScriptValue` union: `string | number | boolean | null |
AppleScriptValue[] | { [key: string]: AppleScriptValue }`.  `nan` is the
JavaScript `NaN` number (produced by `Number("-")` in `parseNumber`); `record`
keeps its fields in insertion order with unique keys, as a JavaScript object
literal does. -/
inductive ASValue where
  | null
  | bool (b : Bool)
  | num (q : JSNumber)
  | nan
  | str (s : String)
  | list (elems : List ASValue)
  | record (fields : List (String × ASValue))
  deriving Repr

mutual
/-- Model of JavaScript's `String(value)` conversion: scalars print canonically,
arrays join their elements' string forms with commas (with `null` elements as
the empty string), and plain objects print as `"[object Object]"`. -/
def jsToString : ASValue → String
  | .null => "null"
  | .bool true => "true"
  | .bool false => "false"
  | .num q => numToString q
  | .nan => "NaN"
  | .str s => s
  | .list xs => String.intercalate "," (jsToStringElems xs)
  | .record _ => "[object Object]"

/-- Element-wise string forms used by `Array.prototype.join`. -/
def jsToStringElems : List ASValue → List String
  | [] => []
  | v :: rest =>
    (match v with
      | .null => ""
      | w => jsToString w) :: jsToStringElems rest
end

/-- Association-list lookup: model of JavaScript property access `obj[key]`,
`none` playing the role of `undefined`. -/
def assocGet (fields : List (String × ASValue)) (key : String) : Option ASValue :=
  match fields with
  | [] => none
  | p :: rest => if p.1 = key then some p.2 else assocGet rest key

/-- Association-list update: model of `obj[key] = value` on a JavaScript object
and of `Map.prototype.set` — an existing key keeps its position and receives
the new value, a new key is appended. -/
def assocSet {α : Type} (fields : List (String × α)) (key : String) (value : α) :
    List (String × α) :=
  match fields with
  | [] => [(key, value)]
  | p :: rest => if p.1 = key then (key, value) :: rest else p :: assocSet rest key value

/-- Property access on an arbitrary value: only object (record) values carry
named fields; array values have none of the property names the mappers read. -/
def jsGet (v : ASValue) (key : String) : Option ASValue :=
  match v with
  | .record fields => assocGet fields key
  | _ => none

/-- The `item !== null && typeof item === "object"` test the mappers use to
keep object-like batch elements (both arrays and records pass it). -/
def jsIsObjLike : ASValue → Bool
  | .list _ => true
  | .record _ => true
  | _ => false

/-- JavaScript truthiness (`!!value`), with `none` as `undefined`. -/
def jsTruthy : Option ASValue → Bool
  | none => false
  | some .null => false
  | some (.bool b) => b
  | some (.num q) => q.m ≠ 0
  | some .nan => false
  | some (.str s) => s ≠ ""
  | some (.list _) => true
  | some (.record _) => true

/-! ## The value parser (`AppleScriptSourceParser` in `src/utils/notes.ts`)

The class's private cursor becomes an explicitly passed remaining input
(`List Char`); every method returns the parsed piece together with the input
left over.  `skipWhitespace` is `List.dropWhile jsIsSpace`. -/

/-- Source `skipWhitespace`. -/
def skipWhitespace (cs : List Char) : List Char := cs.dropWhile jsIsSpace

/-- The record-key character class `/[A-Za-z0-9_]/` of `parseKey`. -/
def isKeyChar (c : Char) : Bool :=
  ('A' ≤ c ∧ c ≤ 'Z') ∨ ('a' ≤ c ∧ c ≤ 'z') ∨ ('0' ≤ c ∧ c ≤ '9') ∨ c = '_'

/-- The digit class `/[0-9]/`, the parser's `isDigit`. -/
def isDigitChar (c : Char) : Bool := '0' ≤ c ∧ c ≤ '9'

/-- Source `skipStringFrom`, applied to the input just after the opening quote:
skip to just past the closing quote, stepping over backslash escapes; `none`
models the "Unterminated string literal detected while scanning" throw (also
reached when a trailing backslash jumps past the end of the input). -/
def skipStringFrom : List Char → Option (List Char)
  | [] => none
  | c :: rest =>
    if c = '\\' then
      match rest with
      | [] => none
      | _ :: rest' => skipStringFrom rest'
    else if c = '"' then some rest
    else skipStringFrom rest

theorem skipStringFrom_length_lt :
    ∀ (cs res : List Char), skipStringFrom cs = some res → res.length < cs.length
  | [], _ => by simp [skipStringFrom]
  | c :: rest, res => by
    intro h
    unfold skipStringFrom at h
    by_cases hb : c = '\\'
    · rw [if_pos hb] at h
      cases rest with
      | nil => exact absurd h (by simp)
      | cons x rest' =>
        have := skipStringFrom_length_lt rest' res h
        simp only [List.length_cons]
        omega
    · rw [if_neg hb] at h
      by_cases hq : c = '"'
      · rw [if_pos hq] at h
        injection h with h
        subst h
        simp only [List.length_cons]
        omega
      · rw [if_neg hq] at h
        have := skipStringFrom_length_lt rest res h
        simp only [List.length_cons]
        omega

/-- The loop body of `isRecordCollection`, the lookahead classifier.  The
source loop runs `while (position < input.length)`, so its iteration count is
bounded by the remaining input length; the embedding makes that bound an
explicit first argument (`isRecordCollection` below instantiates it) so the
function stays structurally recursive.  Scanning tracks brace depth, skips
whitespace and whole string literals; at depth 0 a `:` yields a record verdict
(`some true`), a `,` or the matching `}` yields a list verdict (`some false`);
running out of input yields `some false`; `none` models the throw from
`skipStringFrom` on an unterminated string. -/
def isRecordCollectionFuel : Nat → Nat → List Char → Option Bool
  | 0, _, _ => some false
  | fuel + 1, depth, cs =>
    match cs with
    | [] => some false
    | c :: rest =>
      if jsIsSpace c then isRecordCollectionFuel fuel depth rest
      else if c = '"' then
        match skipStringFrom rest with
        | none => none
        | some res => isRecordCollectionFuel fuel depth res
      else if c = '{' then isRecordCollectionFuel fuel (depth + 1) rest
      else if c = '}' then
        if depth = 0 then some false else isRecordCollectionFuel fuel (depth - 1) rest
      else if depth = 0 ∧ c = ':' then some true
      else if depth = 0 ∧ c = ',' then some false
      else isRecordCollectionFuel fuel depth rest

/-- Source `isRecordCollection`: every loop step consumes at least one input
character, so the input length bounds the iteration count. -/
def isRecordCollection (depth : Nat) (cs : List Char) : Option Bool :=
  isRecordCollectionFuel cs.length depth cs

/-- The character an escape sequence `\c` denotes inside a string literal
(the `switch` in `parseString`): the five named escapes, any other character
passing through literally. -/
def escChar (c : Char) : Char :=
  if c = '"' then '"'
  else if c = '\\' then '\\'
  else if c = 'n' then '\n'
  else if c = 'r' then '\r'
  else if c = 't' then '\t'
  else c

/-- The body loop of `parseString`, applied just after the opening quote:
returns the decoded characters and the input after the closing quote.
Running out of input is the "Unterminated string literal in AppleScript
result" throw; input ending right after a backslash is the "Unexpected end of
AppleScript result" throw from `consume()`. -/
def parseStringBody : List Char → Except String (List Char × List Char)
  | [] => .error "Unterminated string literal in AppleScript result"
  | c :: rest =>
    if c = '"' then .ok ([], rest)
    else if c = '\\' then
      match rest with
      | [] => .error "Unexpected end of AppleScript result"
      | e :: rest' => (parseStringBody rest').map (fun p => (escChar e :: p.1, p.2))
    else (parseStringBody rest).map (fun p => (c :: p.1, p.2))

/-- Source `parseString`: consume the opening quote, then decode the body. -/
def parseString (cs : List Char) : Except String (String × List Char) :=
  match cs with
  | [] => .error "Unexpected end of AppleScript result"
  | c :: rest =>
    if c = '"' then (parseStringBody rest).map (fun p => (String.mk p.1, p.2))
    else .error s!"Expected \"\x22\" but found \"{c}\" in AppleScript result"

/-- Source `parseKey`: skip whitespace, then either a quoted string or a non-empty
run of `[A-Za-z0-9_]` characters. -/
def parseKey (cs : List Char) : Except String (String × List Char) :=
  let cs := skipWhitespace cs
  match cs with
  | [] => .error "Unexpected end while parsing key"
  | c :: rest =>
    if c = '"' then parseString (c :: rest)
    else
      let p := (c :: rest).span isKeyChar
      if p.1.isEmpty then .error "Invalid record key in AppleScript result"
      else .ok (String.mk p.1, p.2)

/-- Digit run to a natural number. -/
def digitsToNat (ds : List Char) : Nat :=
  ds.foldl (fun acc c => acc * 10 + (c.toNat - '0'.toNat)) 0

/-- Source `parseNumber`: optional `-`, digits, optional `.` and digits, converted by
`Number(text)`.  When no digit was consumed at all (`Number("-")`,
`Number("-.")`) the JavaScript result is `NaN`. -/
def parseNumber (cs : List Char) : ASValue × List Char :=
  let p0 : Bool × List Char := match cs with
    | '-' :: rest => (true, rest)
    | _ => (false, cs)
  let p1 := p0.2.span isDigitChar
  let p2 : List Char × List Char := match p1.2 with
    | '.' :: rest => rest.span isDigitChar
    | _ => ([], p1.2)
  if p1.1.isEmpty ∧ p2.1.isEmpty then (.nan, p2.2)
  else
    let mag : Int := Int.ofNat (digitsToNat (p1.1 ++ p2.1))
    (.num ⟨if p0.1 then -mag else mag, p2.1.length⟩, p2.2)

/-- Source `parseBareword`: capture up to the next `,`, `}` or whitespace; empty
capture is the "Unable to parse AppleScript value" throw. -/
def parseBareword (cs : List Char) : Except String (ASValue × List Char) :=
  let p := cs.span (fun c => ¬ (c = ',' ∨ c = '}' ∨ jsIsSpace c))
  if p.1.isEmpty then .error "Unable to parse AppleScript value"
  else .ok (.str (String.mk p.1), p.2)

/-- Source `consume(expected)`: take one character, demanding it be `expected`. -/
def consumeExpected (expected : Char) (cs : List Char) : Except String (List Char) :=
  match cs with
  | [] => .error "Unexpected end of AppleScript result"
  | c :: rest =>
    if c = expected then .ok rest
    else .error s!"Expected \"{expected}\" but found \"{c}\" in AppleScript result"

/-- The pending call of the recursive descent: the body of `parseValue`, or
one of the two content loops inside `parseCollection` (with the object or
array built so far).  A single task-indexed function keeps the mutual
recursion structural in its fuel argument. -/
inductive ParseTask where
  | value (cs : List Char)
  | recordItems (cs : List Char) (acc : List (String × ASValue))
  | listItems (cs : List Char) (acc : List ASValue)

/-- The mutual recursion of `parseValue` / `parseCollection` and the two
content loops, driven by fuel.  Any fuel of at least the input length plus one
is enough, since at least one character is consumed between consecutive
recursive calls.

* `.value cs`: the body of `parseValue` with `parseCollection` inlined at the
  `{` branch: after `consume("{")` and whitespace, `}` immediately yields the
  empty list (the classifier is not consulted); otherwise `isRecordCollection`
  fixes the shape and the matching content loop runs, followed by
  `skipWhitespace` and `consume("}")`.
* `.recordItems cs acc`: the record-content loop — `key : value` pairs written
  into the object (`result[key] = value`, last write winning), separated by
  commas.
* `.listItems cs acc`: the list-content loop — comma-separated values kept in
  order. -/
def parseRun : Nat → ParseTask → Except String (ASValue × List Char)
  | 0, _ => .error "AppleScript result too deeply nested"
  | fuel + 1, .value cs0 =>
    let cs := skipWhitespace cs0
    match cs with
    | [] => .error "Unexpected end of AppleScript result"
    | c :: rest =>
      if c = '{' then
        let cs1 := skipWhitespace rest
        match cs1 with
        | '}' :: rest1 => .ok (.list [], rest1)
        | _ =>
          match isRecordCollection 0 cs1 with
          | none => .error "Unterminated string literal detected while scanning"
          | some true =>
            match parseRun fuel (.recordItems cs1 []) with
            | .error e => .error e
            | .ok (v, cs2) =>
              match consumeExpected '}' (skipWhitespace cs2) with
              | .error e => .error e
              | .ok cs3 => .ok (v, cs3)
          | some false =>
            match parseRun fuel (.listItems cs1 []) with
            | .error e => .error e
            | .ok (v, cs2) =>
              match consumeExpected '}' (skipWhitespace cs2) with
              | .error e => .error e
              | .ok cs3 => .ok (v, cs3)
      else if c = '"' then (parseString (c :: rest)).map (fun p => (.str p.1, p.2))
      else if "missing value".toList.isPrefixOf (c :: rest) then
        .ok (.null, (c :: rest).drop "missing value".length)
      else if "true".toList.isPrefixOf (c :: rest) then
        .ok (.bool true, (c :: rest).drop "true".length)
      else if "false".toList.isPrefixOf (c :: rest) then
        .ok (.bool false, (c :: rest).drop "false".length)
      else if c = '-' ∨ isDigitChar c then .ok (parseNumber (c :: rest))
      else parseBareword (c :: rest)
  | fuel + 1, .recordItems cs acc =>
    match parseKey cs with
    | .error e => .error e
    | .ok (key, cs1) =>
      match consumeExpected ':' (skipWhitespace cs1) with
      | .error e => .error e
      | .ok cs2 =>
        match parseRun fuel (.value cs2) with
        | .error e => .error e
        | .ok (value, cs3) =>
          let acc' := assocSet acc key value
          match skipWhitespace cs3 with
          | ',' :: rest => parseRun fuel (.recordItems rest acc')
          | cs4 => .ok (.record acc', cs4)
  | fuel + 1, .listItems cs acc =>
    match parseRun fuel (.value cs) with
    | .error e => .error e
    | .ok (value, cs1) =>
      let acc' := acc ++ [value]
      match skipWhitespace cs1 with
      | ',' :: rest => parseRun fuel (.listItems rest acc')
      | cs2 => .ok (.list acc', cs2)

/-- Source `parseValue`, at a given fuel. -/
def parseValueFuel (fuel : Nat) (cs : List Char) : Except String (ASValue × List Char) :=
  parseRun fuel (.value cs)

/-- Source `AppleScriptSourceParser.parse`: skip whitespace, parse the single
top-level value, skip whitespace, and demand the input be exhausted —
anything left is the "Unexpected trailing content in AppleScript result"
throw. -/
def parseTop (cs : List Char) : Except String ASValue :=
  match parseValueFuel (cs.length + 1) (skipWhitespace cs) with
  | .error e => .error e
  | .ok (value, rest) =>
    if (skipWhitespace rest).isEmpty then .ok value
    else .error "Unexpected trailing content in AppleScript result"

/-- Model of `String.prototype.trim` (both ends), via a reversal for the right end. -/
def jsTrim (cs : List Char) : List Char :=
  ((cs.reverse.dropWhile jsIsSpace).reverse).dropWhile jsIsSpace

/-- The `replace(/^=>\s*/, "")` normalization: a literal `=>` and any
following whitespace are removed from the front. -/
def stripArrowMarker (cs : List Char) : List Char :=
  match cs with
  | c1 :: c2 :: rest => if c1 = '=' ∧ c2 = '>' then rest.dropWhile jsIsSpace else cs
  | _ => cs

/-- Source `parseAppleScriptResult` on the string path: trim, map the empty string to
`null`, strip the diagnostic `=>` marker, then run the parser. -/
def parseAppleScriptResult (cs : List Char) : Except String ASValue :=
  let trimmed := jsTrim cs
  if trimmed.isEmpty then .ok .null
  else parseTop (stripArrowMarker trimmed)

example : parseAppleScriptResult "\x7b\x7d".toList = .ok (.list []) := rfl
example : parseAppleScriptResult "\x7ba:1, b:2\x7d".toList =
    .ok (.record [("a", .num ⟨1, 0⟩), ("b", .num ⟨2, 0⟩)]) := rfl
example : parseAppleScriptResult "\x7b1, 2, 3\x7d".toList =
    .ok (.list [.num ⟨1, 0⟩, .num ⟨2, 0⟩, .num ⟨3, 0⟩]) := rfl
example : parseAppleScriptResult "\"line1\\nline2\"".toList = .ok (.str "line1\nline2") := rfl
example : parseAppleScriptResult "\"She said \\\"hi\\\"\"".toList =
    .ok (.str "She said \"hi\"") := rfl
example : parseAppleScriptResult "=> missing value".toList = .ok .null := rfl
example : parseAppleScriptResult "\x7bstatus:\"error\", reason:\"folder_not_found\"\x7d".toList =
    .ok (.record [("status", .str "error"), ("reason", .str "folder_not_found")]) := rfl
example : parseAppleScriptResult "1 2".toList =
    .error "Unexpected trailing content in AppleScript result" := rfl
example : parseAppleScriptResult "-12.50".toList = .ok (.num ⟨-1250, 2⟩) := rfl
example : numToString ⟨-1250, 2⟩ = "-12.5" := rfl

/-! ## Spec-side restatement of the collection classifier (spec §4.2)

The spec describes the lookahead as a single forward scan that tracks nesting
depth and respects backslash escapes inside string literals.  `classifyScan`
renders those words directly as a character-level state machine (an in-string
flag and an escape flag), in contrast to the source's `isRecordCollection`,
which delegates string literals to the `skipStringFrom` subroutine and bounds
its loop by the input length. -/

/-- One forward scan, as the spec words it: at depth 0 a `:` means record, a
`,` or the matching `}` means list; string literals are crossed character by
character, an escape flag skipping the character after a backslash; a nested
`{` raises the depth and a `}` lowers it.  `none` is an unterminated string
literal (input exhausted while the in-string flag is set). -/
def classifyScan (depth : Nat) (inStr esc : Bool) : List Char → Option Bool
  | [] => if inStr then none else some false
  | c :: rest =>
    if inStr then
      if esc then classifyScan depth true false rest
      else if c = '\\' then classifyScan depth true true rest
      else if c = '"' then classifyScan depth false false rest
      else classifyScan depth true false rest
    else
      if jsIsSpace c then classifyScan depth false false rest
      else if c = '"' then classifyScan depth true false rest
      else if c = '{' then classifyScan (depth + 1) false false rest
      else if c = '}' then
        if depth = 0 then some false else classifyScan (depth - 1) false false rest
      else if depth = 0 ∧ c = ':' then some true
      else if depth = 0 ∧ c = ',' then some false
      else classifyScan depth false false rest

/-- The classifier as the spec words it, from the position just after the
opening brace. -/
def classifySpec (cs : List Char) : Option Bool := classifyScan 0 false false cs

theorem classifyScan_string :
    ∀ (cs : List Char) (d : Nat),
      classifyScan d true false cs =
        (match skipStringFrom cs with
          | none => none
          | some r => classifyScan d false false r)
  | [], _ => rfl
  | c :: rest, d => by
    show (if c = '\\' then classifyScan d true true rest
          else if c = '"' then classifyScan d false false rest
          else classifyScan d true false rest) = _
    by_cases hb : c = '\\'
    · rw [if_pos hb]
      cases rest with
      | nil =>
        rw [skipStringFrom.eq_2, if_pos hb]
        rfl
      | cons x rest' =>
        rw [skipStringFrom.eq_3, if_pos hb]
        have h2 : classifyScan d true true (x :: rest') = classifyScan d true false rest' := rfl
        rw [h2]
        exact classifyScan_string rest' d
    · rw [if_neg hb]
      by_cases hq : c = '"'
      · rw [if_pos hq]
        cases rest with
        | nil => rw [skipStringFrom.eq_2, if_neg hb, if_pos hq]
        | cons x rest' => rw [skipStringFrom.eq_3, if_neg hb, if_pos hq]
      · rw [if_neg hq]
        cases rest with
        | nil =>
          rw [skipStringFrom.eq_2, if_neg hb, if_neg hq]
          exact classifyScan_string [] d
        | cons x rest' =>
          rw [skipStringFrom.eq_3, if_neg hb, if_neg hq]
          exact classifyScan_string (x :: rest') d

theorem isRecordCollectionFuel_eq_classifyScan :
    ∀ (fuel : Nat) (cs : List Char) (d : Nat), cs.length ≤ fuel →
      isRecordCollectionFuel fuel d cs = classifyScan d false false cs := by
  intro fuel
  induction fuel with
  | zero =>
    intro cs d h
    have : cs = [] := by
      cases cs with
      | nil => rfl
      | cons c rest => simp at h
    subst this
    simp [isRecordCollectionFuel, classifyScan]
  | succ n ih =>
    intro cs d h
    cases cs with
    | nil => simp [isRecordCollectionFuel, classifyScan]
    | cons c rest =>
      have hrest : rest.length ≤ n := by simp at h; omega
      unfold isRecordCollectionFuel classifyScan
      by_cases hws : jsIsSpace c
      · simp only [hws, if_true, if_pos]
        exact ih rest d hrest
      · simp only [hws, if_false, if_neg, Bool.false_eq_true, not_false_iff]
        by_cases hq : c = '"'
        · simp only [hq, if_pos, if_true, ite_true]
          rw [classifyScan_string]
          cases hskip : skipStringFrom rest with
          | none => simp
          | some r =>
            simp only []
            have hr : r.length ≤ n := by
              have := skipStringFrom_length_lt rest r hskip
              omega
            exact ih r d hr
        · simp only [hq, if_false]
          by_cases hob : c = '{'
          · simp only [hob, if_pos, if_true, ite_true]
            exact ih rest (d + 1) hrest
          · simp only [hob, if_false]
            by_cases hcb : c = '}'
            · simp only [hcb, if_pos, if_true, ite_true]
              by_cases hd : d = 0
              · simp [hd]
              · simp only [hd, if_false]
                exact ih rest (d - 1) hrest
            · simp only [hcb, if_false]
              by_cases hcolon : d = 0 ∧ c = ':'
              · simp [hcolon]
              · simp only [hcolon, if_false]
                by_cases hcomma : d = 0 ∧ c = ','
                · simp [hcomma]
                · simp only [hcomma, if_false]
                  exact ih rest d hrest

/-- The source classifier coincides with the spec's single-scan description. -/
theorem isRecordCollection_eq_classifySpec (cs : List Char) :
    isRecordCollection 0 cs = classifySpec cs :=
  isRecordCollectionFuel_eq_classifyScan cs.length cs 0 le_rfl

theorem jsTrim_reverse_dropWhile_ne_nil {t : List Char} (h : jsTrim t ≠ []) :
    t.reverse.dropWhile jsIsSpace ≠ [] := by
  intro h0
  apply h
  unfold jsTrim
  rw [h0]
  rfl

theorem jsTrim_arrowSpace (t : List Char) (h : jsTrim t ≠ []) :
    jsTrim ('=' :: '>' :: ' ' :: t) =
      '=' :: '>' :: ' ' :: (t.reverse.dropWhile jsIsSpace).reverse := by
  have hne : t.reverse.dropWhile jsIsSpace ≠ [] := jsTrim_reverse_dropWhile_ne_nil h
  have hemp : (t.reverse.dropWhile jsIsSpace).isEmpty = false := by
    cases h' : t.reverse.dropWhile jsIsSpace with
    | nil => exact absurd h' hne
    | cons a l => rfl
  unfold jsTrim
  have hrev : ('=' :: '>' :: ' ' :: t).reverse = t.reverse ++ [' ', '>', '='] := by
    simp
  rw [hrev, List.dropWhile_append, hemp]
  simp only [Bool.false_eq_true, if_false, List.reverse_append]
  have h1 : jsIsSpace '=' = false := by decide
  simp [List.dropWhile_cons, h1]

theorem stripArrowMarker_eq_self {cs : List Char}
    (h : ∀ rest, cs ≠ '=' :: '>' :: rest) : stripArrowMarker cs = cs := by
  match cs with
  | [] => rfl
  | [c] => rfl
  | c1 :: c2 :: rest =>
    show (if c1 = '=' ∧ c2 = '>' then rest.dropWhile jsIsSpace else c1 :: c2 :: rest) = _
    rw [if_neg]
    intro hc
    exact h rest (by rw [hc.1, hc.2])

/-- The diagnostic-marker conjunct of the parsing pipeline: prefixing a
payload with `"=> "` does not change the parse result, provided the payload
is not blank and does not itself begin (after trimming) with `=>`. -/
theorem parseAppleScriptResult_arrowMarker (t : List Char) (h1 : jsTrim t ≠ [])
    (h2 : ∀ rest, jsTrim t ≠ '=' :: '>' :: rest) :
    parseAppleScriptResult ('=' :: '>' :: ' ' :: t) = parseAppleScriptResult t := by
  have hE := jsTrim_arrowSpace t h1
  have hstrip : stripArrowMarker ('=' :: '>' :: ' ' :: (t.reverse.dropWhile jsIsSpace).reverse) =
      (' ' :: (t.reverse.dropWhile jsIsSpace).reverse).dropWhile jsIsSpace := rfl
  have hsp : jsIsSpace ' ' = true := by decide
  have hdw : (' ' :: (t.reverse.dropWhile jsIsSpace).reverse).dropWhile jsIsSpace = jsTrim t := by
    rw [List.dropWhile_cons]
    simp only [hsp, if_true]
    rfl
  have hempty : (jsTrim t).isEmpty = false := by
    cases h' : jsTrim t with
    | nil => exact absurd h' h1
    | cons a l => rfl
  unfold parseAppleScriptResult
  simp only [hE, hstrip, hdw, hempty, List.isEmpty_cons, Bool.false_eq_true, if_false]
  rw [stripArrowMarker_eq_self h2]

/-! ## The coercion library

`coerceString` is defined, textually identically, in the notes, calendar,
reminders and mail modules; `coerceBoolean` below is the notes/calendar
variant (the mail variant differs and lives in the `Mail` namespace).
Arguments of TypeScript type `unknown` become `Option ASValue`, `none`
playing the role of `undefined`. -/

/-- Source `coerceString(value, fallback = "")`: a string is returned as is; `null`
and `undefined` yield the fallback; anything else goes through `String(value)`
— including arrays and objects. -/
def coerceString (value : Option ASValue) (fallback : String := "") : String :=
  match value with
  | some (.str s) => s
  | none => fallback
  | some .null => fallback
  | some v => jsToString v

/-- ASCII model of `String.prototype.toLowerCase`. -/
def jsToLowerChar (c : Char) : Char :=
  if 'A' ≤ c ∧ c ≤ 'Z' then Char.ofNat (c.toNat + 32) else c

/-- ASCII model of `String.prototype.toLowerCase` on whole strings. -/
def jsToLower (s : String) : String := String.mk (s.toList.map jsToLowerChar)

/-- Source `coerceBoolean(value, fallback = false)` (notes/calendar variant):
boolean passthrough; a number compares against zero (`NaN !== 0` is true);
the strings `true/yes/1` and `false/no/0` (lower-cased) decide; anything else
yields the fallback. -/
def coerceBoolean (value : Option ASValue) (fallback : Bool := false) : Bool :=
  match value with
  | some (.bool b) => b
  | some (.num q) => q.m ≠ 0
  | some .nan => true
  | some (.str s) =>
    let normalized := jsToLower s
    if normalized = "true" ∨ normalized = "yes" ∨ normalized = "1" then true
    else if normalized = "false" ∨ normalized = "no" ∨ normalized = "0" then false
    else fallback
  | _ => fallback

/-- Model of JavaScript's `Number(string)` conversion on the plain decimal
forms the bridge scripts produce: surrounding whitespace is ignored, an
optional sign precedes digits with an optional fractional part, the empty
(trimmed) string is zero, and anything else is `NaN` (`none`).  Exponent,
hexadecimal and `Infinity` forms are not modelled. -/
def jsNumberOfString (s : String) : Option JSNumber :=
  let cs := jsTrim s.toList
  if cs.isEmpty then some ⟨0, 0⟩
  else
    let p0 : Bool × List Char :=
      match cs with
      | '-' :: rest => (true, rest)
      | '+' :: rest => (false, rest)
      | _ => (false, cs)
    let p1 := p0.2.span isDigitChar
    let p2 : List Char × List Char :=
      match p1.2 with
      | '.' :: rest => rest.span isDigitChar
      | _ => ([], p1.2)
    if p2.2.isEmpty ∧ ¬(p1.1.isEmpty ∧ p2.1.isEmpty) then
      let mag : Int := Int.ofNat (digitsToNat (p1.1 ++ p2.1))
      some ⟨if p0.1 then -mag else mag, p2.1.length⟩
    else none

/-- Source `toNumber` (notes/calendar modules): a finite number passes through
(`Number.isFinite(NaN)` is false); a string with non-blank trim parses via
`Number(value)`, `NaN` becoming `null`; everything else is `null`. -/
def toNumber (value : Option ASValue) : Option JSNumber :=
  match value with
  | some (.num q) => some q
  | some (.str s) =>
    if (jsTrim s.toList).isEmpty then none
    else
      match jsNumberOfString s with
      | some q => some q
      | none => none
  | _ => none

/-- Model of `new Date(x)`, which clips its argument to an integer millisecond time value
(truncation toward zero). -/
def dateMsOfNum (q : JSNumber) : Int := Int.tdiv q.m (Int.ofNat (10 ^ q.e))

/-- Source `toDateFromUnix` (notes module): seconds (possibly fractional, as text)
to a `Date`, modelled by its millisecond time value; `undefined` when the
input does not coerce to a number. -/
def toDateFromUnix (value : Option ASValue) : Option Int :=
  match toNumber value with
  | none => none
  | some q => some (dateMsOfNum ⟨q.m * 1000, q.e⟩)

/-! ## Calendar date arithmetic

Models of `Date.prototype.toISOString` and `Date.parse`, using the standard
civil-from-days / days-from-civil conversions on the proleptic Gregorian
calendar.  The model covers years 1–9999 and, for parsing, the
`YYYY-MM-DD[THH:MM[:SS[.mmm]]Z]`-shaped strings the code itself produces;
`Date.parse` on other host-specific formats is modelled as `NaN` (`none`). -/

/-- Decimal digits of `n`, left-padded with zeros to `width`. -/
def padNum (width : Nat) (n : Nat) : String :=
  let digits := Nat.repr n
  String.mk (List.replicate (width - digits.length) '0') ++ digits

/-- Days since 1970-01-01 to (year, month, day) on the proleptic Gregorian
calendar. -/
def civilFromDays (z0 : Int) : Int × Int × Int :=
  let z := z0 + 719468
  let era := z.ediv 146097
  let doe := z - era * 146097
  let yoe := (doe - doe.ediv 1460 + doe.ediv 36524 - doe.ediv 146096).ediv 365
  let y := yoe + era * 400
  let doy := doe - (365 * yoe + yoe.ediv 4 - yoe.ediv 100)
  let mp := (5 * doy + 2).ediv 153
  let d := doy - (153 * mp + 2).ediv 5 + 1
  let m := mp + (if mp < 10 then 3 else -9)
  (y + (if m ≤ 2 then 1 else 0), m, d)

/-- Civil (year, month, day) to days since 1970-01-01. -/
def daysFromCivil (y m d : Int) : Int :=
  let y' := y - (if m ≤ 2 then 1 else 0)
  let era := y'.ediv 400
  let yoe := y' - era * 400
  let doy := (153 * (m + (if m > 2 then (-3 : Int) else 9)) + 2).ediv 5 + d - 1
  let doe := yoe * 365 + yoe.ediv 4 - yoe.ediv 100 + doy
  era * 146097 + doe - 719468

/-- Model of `Date.prototype.toISOString`: `YYYY-MM-DDTHH:MM:SS.sssZ` in UTC. -/
def isoOfMs (ms : Int) : String :=
  let days := ms.ediv 86400000
  let msod := (ms.emod 86400000).toNat
  let c := civilFromDays days
  padNum 4 c.1.toNat ++ "-" ++ padNum 2 c.2.1.toNat ++ "-" ++ padNum 2 c.2.2.toNat ++ "T" ++
    padNum 2 (msod / 3600000) ++ ":" ++ padNum 2 (msod / 60000 % 60) ++ ":" ++
    padNum 2 (msod / 1000 % 60) ++ "." ++ padNum 3 (msod % 1000) ++ "Z"

/-- Read exactly `n` decimal digits. -/
def takeDigits (n : Nat) (cs : List Char) : Option (Nat × List Char) :=
  let p := cs.take n
  if p.length = n ∧ p.all isDigitChar then some (digitsToNat p, cs.drop n) else none

/-- The `THH:MM:SS[.mmm]Z` tail of an ISO timestamp, as milliseconds within
the day. -/
def parseClockZ (cs : List Char) : Option Int :=
  match takeDigits 2 cs with
  | some (h, ':' :: cs1) =>
    (match takeDigits 2 cs1 with
      | some (mi, ':' :: cs2) =>
        (match takeDigits 2 cs2 with
          | some (sec, cs3) =>
            (match
              (match cs3 with
                | '.' :: cs4 => takeDigits 3 cs4
                | _ => some (0, cs3)) with
              | some (msv, ['Z']) =>
                if h ≤ 23 ∧ mi ≤ 59 ∧ sec ≤ 59 then
                  some (Int.ofNat (h * 3600000 + mi * 60000 + sec * 1000 + msv))
                else none
              | _ => none)
          | _ => none)
      | _ => none)
  | _ => none

/-- Model of `Date.parse` on ISO `YYYY-MM-DD` dates and
`YYYY-MM-DDTHH:MM:SS[.mmm]Z` timestamps (interpreted in UTC, as JavaScript
does); `none` is `NaN`. -/
def jsDateParse (s : String) : Option Int :=
  match takeDigits 4 s.toList with
  | some (y, '-' :: cs1) =>
    (match takeDigits 2 cs1 with
      | some (mo, '-' :: cs2) =>
        (match takeDigits 2 cs2 with
          | some (d, cs3) =>
            if 1 ≤ mo ∧ mo ≤ 12 ∧ 1 ≤ d ∧ d ≤ 31 then
              let base := daysFromCivil (Int.ofNat y) (Int.ofNat mo) (Int.ofNat d) * 86400000
              match cs3 with
              | [] => some base
              | 'T' :: cs4 =>
                (match parseClockZ cs4 with
                  | some clock => some (base + clock)
                  | none => none)
              | _ => none
            else none
          | _ => none)
      | _ => none)
  | _ => none

/-- Source `toIsoFromUnix` (calendar module): seconds to an ISO string via
`new Date(x * 1000).toISOString()`; `null` when not numeric. -/
def toIsoFromUnix (value : Option ASValue) : Option String :=
  match toNumber value with
  | none => none
  | some q => some (isoOfMs (dateMsOfNum ⟨q.m * 1000, q.e⟩))

example : isoOfMs 1704067200000 = "2024-01-01T00:00:00.000Z" := rfl
example : jsDateParse "2024-01-01T00:00:00.000Z" = some 1704067200000 := rfl
example : jsDateParse "2024-01-03" = some 1704240000000 := rfl
example : jsDateParse "not a date" = none := rfl
example : toNumber (some (.str "1700000000.5")) = some ⟨17000000005, 1⟩ := rfl
example : toDateFromUnix (some (.str "1700000000.5")) = some 1700000000500 := rfl
example : coerceString (some (.record [("a", .num ⟨1, 0⟩)])) "fb" = "[object Object]" := rfl
example : coerceString (some (.list [.str "error"])) "" = "error" := rfl
example : coerceBoolean (some (.str "YES")) = true := rfl
example : coerceBoolean (some .null) = false := rfl

/-! ## Note mapper (`mapNoteRecords`, notes module) -/

/-- The `Note` record type, dates modelled by millisecond time values. -/
structure Note where
  name : String
  content : String
  folderName : Option String
  id : Option String
  creationDate : Option Int
  modificationDate : Option Int
  deriving Repr, DecidableEq

/-- The per-record body of `mapNoteRecords`: every scalar routes through the
coercion library, `folderName || undefined` and `id || undefined` turn empty
strings into absent fields. -/
def mapNote (r : ASValue) : Note :=
  let name := coerceString (jsGet r "name") "Untitled Note"
  let content := coerceString (jsGet r "content") ""
  let folderName := coerceString (jsGet r "folderName") ""
  let id := coerceString (jsGet r "id") ""
  { name := name
    content := content
    folderName := if folderName = "" then none else some folderName
    id := if id = "" then none else some id
    creationDate := toDateFromUnix (jsGet r "creationDate")
    modificationDate := toDateFromUnix (jsGet r "modificationDate") }

/-- The sort key of the comparator in `mapNoteRecords`:
`a.modificationDate?.getTime() ?? a.creationDate?.getTime() ?? 0`. -/
def noteSortTime (n : Note) : Int :=
  match n.modificationDate with
  | some t => t
  | none =>
    match n.creationDate with
    | some t => t
    | none => 0

/-- The order realised by `mapped.sort((a, b) => bTime - aTime)`: descending
by `noteSortTime`. -/
def noteOrder (a b : Note) : Prop := noteSortTime b ≤ noteSortTime a

instance : DecidableRel noteOrder := fun a b =>
  inferInstanceAs (Decidable (noteSortTime b ≤ noteSortTime a))

instance : IsTotal Note noteOrder := ⟨fun a b => le_total (noteSortTime b) (noteSortTime a)⟩

instance : IsTrans Note noteOrder := ⟨fun _ _ _ h1 h2 => le_trans h2 h1⟩

/-- Source `mapNoteRecords`: an array keeps its object-like elements, a lone object
becomes a one-element batch, anything else is empty; each record maps through
`mapNote` and the result is stably sorted descending by recency (JavaScript's
`sort` with the `bTime - aTime` comparator). -/
def mapNoteRecords (raw : ASValue) : List Note :=
  let records : List ASValue :=
    match raw with
    | .list xs => xs.filter jsIsObjLike
    | .record fields => [.record fields]
    | _ => []
  List.insertionSort noteOrder (records.map mapNote)

/-! ## Calendar-event mapper (`mapEventRecords`, calendar module) -/

/-- The `CalendarEvent` interface. -/
structure CalendarEvent where
  id : String
  title : String
  location : Option String
  notes : Option String
  startDate : Option String
  endDate : Option String
  calendarName : String
  isAllDay : Bool
  url : Option String
  deriving Repr, DecidableEq

/-- The constant `Number.MAX_SAFE_INTEGER`, the terminal sort key for events with neither
a parsable start nor end time. -/
def maxSafeInteger : Int := 9007199254740991

/-- Source `getEventSortKey`: the parsed start date if present and parsable, else
the parsed end date, else the terminal sentinel. -/
def getEventSortKey (e : CalendarEvent) : Int :=
  let tryStart : Option Int :=
    match e.startDate with
    | some s => if s ≠ "" then jsDateParse s else none
    | none => none
  match tryStart with
  | some t => t
  | none =>
    let tryEnd : Option Int :=
      match e.endDate with
      | some s => if s ≠ "" then jsDateParse s else none
      | none => none
    match tryEnd with
    | some t => t
    | none => maxSafeInteger

/-- The order realised by `ordered.sort((a, b) => getEventSortKey(a) -
getEventSortKey(b))`: ascending by sort key. -/
def eventOrder (a b : CalendarEvent) : Prop := getEventSortKey a ≤ getEventSortKey b

instance : DecidableRel eventOrder := fun a b =>
  inferInstanceAs (Decidable (getEventSortKey a ≤ getEventSortKey b))

instance : IsTotal CalendarEvent eventOrder :=
  ⟨fun a b => le_total (getEventSortKey a) (getEventSortKey b)⟩

instance : IsTrans CalendarEvent eventOrder := ⟨fun _ _ _ h1 h2 => le_trans h1 h2⟩

/-- The per-record body of the `mapEventRecords` loop, returning the raw
coerced `id` (used for deduplication) together with the built event, whose
`id` field falls back to the synthetic
`` `${title}-${startDate ?? "unknown"}-${calendarName}` `` when empty. -/
def mapEvent (r : ASValue) : String × CalendarEvent :=
  let id := coerceString (jsGet r "id") ""
  let title := coerceString (jsGet r "title") "Untitled Event"
  let location := coerceString (jsGet r "location") ""
  let notes := coerceString (jsGet r "notes") ""
  let calendarName := coerceString (jsGet r "calendarName") "Unknown Calendar"
  let url := coerceString (jsGet r "url") ""
  let startDate := toIsoFromUnix (jsGet r "startDate")
  let endDate := toIsoFromUnix (jsGet r "endDate")
  (id,
    { id := if id = "" then title ++ "-" ++ (startDate.getD "unknown") ++ "-" ++ calendarName
        else id
      title := title
      location := if location = "" then none else some location
      notes := if notes = "" then none else some notes
      startDate := startDate
      endDate := endDate
      calendarName := calendarName
      isAllDay := coerceBoolean (jsGet r "isAllDay")
      url := if url = "" then none else some url })

/-- The accumulation step of the `mapEventRecords` loop: a non-empty id
writes into the `Map` (`deduped.set(id, event)`, last write winning at the
first-insertion position), an id-less event is appended to the fallback
list. -/
def eventFold (acc : List (String × CalendarEvent) × List CalendarEvent) (r : ASValue) :
    List (String × CalendarEvent) × List CalendarEvent :=
  let p := mapEvent r
  if p.1 ≠ "" then (assocSet acc.1 p.1 p.2, acc.2) else (acc.1, acc.2 ++ [p.2])

/-- The record extraction at the head of `mapEventRecords`: only an array
batch maps, and only its object-like elements are kept. -/
def eventRecordsOf (raw : ASValue) : List ASValue :=
  match raw with
  | .list xs => xs.filter jsIsObjLike
  | _ => []

/-- Source `mapEventRecords` (continued): the batch folds through `eventFold`, the
map's values precede the id-less fallback events, and the whole sequence is
stably sorted ascending by `getEventSortKey`. -/
def mapEventRecords (raw : ASValue) : List CalendarEvent :=
  let acc := (eventRecordsOf raw).foldl eventFold ([], [])
  List.insertionSort eventOrder (acc.1.map Prod.snd ++ acc.2)

/-! ## Email mapper (`mapEmailRecords`, `src/utils/mail.ts`) -/

/-- The `EmailMessage` interface. -/
structure EmailMessage where
  subject : String
  sender : String
  dateSent : String
  content : String
  isRead : Bool
  mailbox : String
  deriving Repr, DecidableEq

namespace Mail

/-- Source `coerceBoolean` (mail variant): boolean passthrough; the strings
`true/yes` and `false/no` (lower-cased) decide; then a number compares
against zero; anything else yields the fallback. -/
def coerceBoolean (value : Option ASValue) (fallback : Bool := false) : Bool :=
  match value with
  | some (.bool b) => b
  | some (.str s) =>
    let normalized := jsToLower s
    if normalized = "true" ∨ normalized = "yes" then true
    else if normalized = "false" ∨ normalized = "no" then false
    else fallback
  | some (.num q) => q.m ≠ 0
  | some .nan => true
  | _ => fallback

/-- Source `toIsoDate` (mail module): coerce to text; blank text yields the current
time (`new Date().toISOString()`, the ambient clock passed explicitly as
`nowMs`); parsable text is normalised to ISO; unparsable text is returned
unchanged. -/
def toIsoDate (nowMs : Int) (value : Option ASValue) : String :=
  let asString := coerceString value ""
  if asString = "" then isoOfMs nowMs
  else
    match jsDateParse asString with
    | none => asString
    | some t => isoOfMs t

/-- The nullish-coalescing chain `record.dateSent ?? record.date ??
record.sentDate ?? record.receivedDate`: a present non-null field wins. -/
def firstNonNull (r : ASValue) : List String → Option ASValue
  | [] => none
  | key :: rest =>
    match jsGet r key with
    | none => firstNonNull r rest
    | some .null => firstNonNull r rest
    | some v => some v

/-- The per-record body of `mapEmailRecords`. -/
def mapEmail (nowMs : Int) (fallbackMailbox : Option String) (r : ASValue) : EmailMessage :=
  { subject := coerceString (jsGet r "subject") "No subject"
    sender := coerceString (jsGet r "sender") "Unknown sender"
    dateSent := toIsoDate nowMs (firstNonNull r ["dateSent", "date", "sentDate", "receivedDate"])
    content := coerceString (jsGet r "content") "[Content not available]"
    isRead := coerceBoolean (jsGet r "isRead") (jsTruthy (jsGet r "read"))
    mailbox := coerceString
      (match firstNonNull r ["mailbox"] with
        | some v => some v
        | none => some (.str (fallbackMailbox.getD "Unknown mailbox"))) "" }

/-- Source `mapEmailRecords`: only an array batch maps; object-like elements map
through `mapEmail` and the final filter `email.subject || email.sender`
drops a record exactly when both coerced identity fields are empty. -/
def mapEmailRecords (nowMs : Int) (raw : ASValue) (fallbackMailbox : Option String) :
    List EmailMessage :=
  match raw with
  | .list xs =>
    ((xs.filter jsIsObjLike).map (mapEmail nowMs fallbackMailbox)).filter
      (fun e => e.subject ≠ "" ∨ e.sender ≠ "")
  | _ => []

end Mail

/-! ## Status-envelope interpretation (`fetchNotes` / `fetchEvents` /
`fetchReminders` post-processing)

All three fetch functions run the same check on the bridge result before
mapping: a non-array object whose `status` key coerces to the exact string
`"error"` aborts with a message chosen by the coerced `reason`.  The notes
instance is embedded; its two siblings differ only in the reason keyword and
message texts. -/

/-- The message selected by `fetchNotes` for a detected error envelope:
`folder_not_found` has a dedicated text (interpolating the requested folder),
any other non-empty reason is surfaced as is, and an empty reason falls back
to a generic text (`reason || "Notes operation failed."`). -/
def noteFailureMessage (folder : String) (reason : String) : String :=
  if reason = "folder_not_found" then
    s!"Could not find a Notes folder named \"{folder}\"."
  else if reason = "" then "Notes operation failed."
  else reason

/-- The status check of `fetchNotes` (lines 634–643): `some message` when the
failure path throws, `none` when control falls through to the mapper. -/
def noteStatusFailure (folder : String) (v : ASValue) : Option String :=
  match v with
  | .record fields =>
    if coerceString (assocGet fields "status") "" = "error" then
      some (noteFailureMessage folder (coerceString (assocGet fields "reason") ""))
    else none
  | _ => none

/-- The tail of `fetchNotes` from the parsed bridge result onward: the status
check runs first; only when it passes does `mapNoteRecords` run, its output
capped by `slice(0, maxNotes)`. -/
def fetchNotesPipeline (folder : String) (maxNotes : Nat) (v : ASValue) :
    Except String (List Note) :=
  match noteStatusFailure folder v with
  | some message => .error message
  | none => .ok ((mapNoteRecords v).take maxNotes)

example : fetchNotesPipeline "X" 50 (.record [("status", .str "error"), ("reason", .str "folder_not_found")]) =
    .error "Could not find a Notes folder named \"X\"." := rfl
example : fetchNotesPipeline "X" 50 (.record [("status", .str "error")]) =
    .error "Notes operation failed." := rfl
example : fetchNotesPipeline "X" 50 (.record [("status", .list [.str "error"])]) =
    .error "Notes operation failed." := rfl
example : (fetchNotesPipeline "X" 50 (.list [.record [("name", .str "n")]])).isOk = true := rfl

/-! ## Spec-side description of the event deduplication (spec §4.4)

The spec words the event pipeline as: deduplicate by non-empty `id`, last
write winning under a given id (the entry staying at its first-occurrence
position), id-less records appended after all deduplicated ones in
encountered order, and the final sequence sorted ascending by the effective
time key.  `dedupPairs` renders the deduplication directly by recursion on
the encountered sequence, in contrast to the source's imperative
`Map`-and-`set` loop. -/

/-- The last value written under key `k`, if any. -/
def lastValueFor (ps : List (String × CalendarEvent)) (k : String) : Option CalendarEvent :=
  ((ps.filter (fun p => p.1 = k)).map Prod.snd).getLast?

/-- Deduplication as the spec words it: each key keeps its first-occurrence
position and carries the last value written under it; later occurrences
disappear. -/
def dedupPairs : List (String × CalendarEvent) → List (String × CalendarEvent)
  | [] => []
  | (k, v) :: ps =>
    (k,
      match lastValueFor ps k with
      | some w => w
      | none => v) :: dedupPairs (ps.filter (fun p => ¬ p.1 = k))
termination_by ps => ps.length
decreasing_by
  have := List.length_filter_le (fun p => ¬ p.1 = k) ps
  simp only [List.length_cons]
  omega

theorem lastValueFor_append_same (ps : List (String × CalendarEvent)) (k : String)
    (v : CalendarEvent) : lastValueFor (ps ++ [(k, v)]) k = some v := by
  unfold lastValueFor
  rw [List.filter_append]
  simp [List.getLast?_append]

theorem lastValueFor_append_other (ps : List (String × CalendarEvent)) (k k0 : String)
    (v : CalendarEvent) (h : k ≠ k0) : lastValueFor (ps ++ [(k, v)]) k0 = lastValueFor ps k0 := by
  unfold lastValueFor
  rw [List.filter_append]
  simp [h]

theorem dedupPairs_append :
    ∀ (ps : List (String × CalendarEvent)) (k : String) (v : CalendarEvent),
      dedupPairs (ps ++ [(k, v)]) = assocSet (dedupPairs ps) k v
  | [], k, v => by simp [dedupPairs, assocSet, lastValueFor]
  | (k0, v0) :: ps', k, v => by
    by_cases hk : k = k0
    · subst hk
      show dedupPairs ((k, v0) :: (ps' ++ [(k, v)])) = _
      conv_rhs => rw [dedupPairs]
      rw [dedupPairs, lastValueFor_append_same]
      have hfil : (ps' ++ [(k, v)]).filter (fun p => ¬ p.1 = k) =
          ps'.filter (fun p => ¬ p.1 = k) := by
        rw [List.filter_append]
        simp
      rw [hfil]
      simp [assocSet]
    · show dedupPairs ((k0, v0) :: (ps' ++ [(k, v)])) = _
      conv_rhs => rw [dedupPairs]
      rw [dedupPairs, lastValueFor_append_other ps' k k0 v hk]
      have hfil : (ps' ++ [(k, v)]).filter (fun p => ¬ p.1 = k0) =
          ps'.filter (fun p => ¬ p.1 = k0) ++ [(k, v)] := by
        rw [List.filter_append]
        simp [hk]
      rw [hfil]
      rw [dedupPairs_append (ps'.filter (fun p => ¬ p.1 = k0)) k v]
      have hk' : ¬ (k0 = k) := fun hc => hk hc.symm
      simp [assocSet, hk']
termination_by ps _ _ => ps.length
decreasing_by
  have := List.length_filter_le (fun p => ¬ p.1 = k0) ps'
  simp only [List.length_cons]
  omega

theorem foldl_assocSet_eq_dedupPairs (ps : List (String × CalendarEvent)) :
    ps.foldl (fun m p => assocSet m p.1 p.2) [] = dedupPairs ps := by
  induction ps using List.reverseRecOn with
  | nil => simp [dedupPairs]
  | append_singleton ps p ih =>
    rw [List.foldl_append, ih]
    simp only [List.foldl_cons, List.foldl_nil]
    rw [dedupPairs_append]

theorem eventFold_characterization :
    ∀ (records : List ASValue) (m0 : List (String × CalendarEvent)) (f0 : List CalendarEvent),
      records.foldl eventFold (m0, f0) =
        (((records.map mapEvent).filter (fun p => p.1 ≠ "")).foldl
            (fun m p => assocSet m p.1 p.2) m0,
          f0 ++ (((records.map mapEvent).filter (fun p => p.1 = "")).map Prod.snd))
  | [], m0, f0 => by simp
  | r :: records, m0, f0 => by
    rw [List.foldl_cons, List.map_cons]
    by_cases hid : (mapEvent r).1 = ""
    · have hstep : eventFold (m0, f0) r = (m0, f0 ++ [(mapEvent r).2]) := by
        unfold eventFold
        rw [if_neg]
        simp [hid]
      rw [hstep, eventFold_characterization records m0 (f0 ++ [(mapEvent r).2])]
      have h1 : (mapEvent r :: records.map mapEvent).filter (fun p => p.1 ≠ "") =
          (records.map mapEvent).filter (fun p => p.1 ≠ "") := by
        rw [List.filter_cons]
        simp [hid]
      have h2 : (mapEvent r :: records.map mapEvent).filter (fun p => p.1 = "") =
          mapEvent r :: (records.map mapEvent).filter (fun p => p.1 = "") := by
        rw [List.filter_cons]
        simp [hid]
      rw [h1, h2]
      simp
    · have hstep : eventFold (m0, f0) r = (assocSet m0 (mapEvent r).1 (mapEvent r).2, f0) := by
        unfold eventFold
        rw [if_pos]
        simp [hid]
      rw [hstep, eventFold_characterization records (assocSet m0 (mapEvent r).1 (mapEvent r).2) f0]
      have h1 : (mapEvent r :: records.map mapEvent).filter (fun p => p.1 ≠ "") =
          mapEvent r :: (records.map mapEvent).filter (fun p => p.1 ≠ "") := by
        rw [List.filter_cons]
        simp [hid]
      have h2 : (mapEvent r :: records.map mapEvent).filter (fun p => p.1 = "") =
          (records.map mapEvent).filter (fun p => p.1 = "") := by
        rw [List.filter_cons]
        simp [hid]
      rw [h1, h2]
      simp

/-- The event pipeline, restated as the spec words it: spec-side dedup of the
non-empty-id pairs, id-less events appended in encountered order, stable sort
by the effective time key. -/
theorem mapEventRecords_eq_spec (raw : ASValue) :
    mapEventRecords raw =
      List.insertionSort eventOrder
        ((dedupPairs (((eventRecordsOf raw).map mapEvent).filter (fun p => p.1 ≠ ""))).map
            Prod.snd ++
          (((eventRecordsOf raw).map mapEvent).filter (fun p => p.1 = "")).map Prod.snd) := by
  unfold mapEventRecords
  rw [eventFold_characterization (eventRecordsOf raw) [] []]
  rw [foldl_assocSet_eq_dedupPairs]
  simp

/-! ## Spec-side escape table and unterminated-string predicate (spec §4.1) -/

/-- The escape table as the spec words it: `\"`, `\\`, `\n`, `\r`, `\t`
denote quote, backslash, newline, carriage return and tab; any other escaped
character passes through literally. -/
def escSpec (c : Char) : Char :=
  if c = '"' then '"'
  else if c = '\\' then '\\'
  else if c = 'n' then '\n'
  else if c = 'r' then '\r'
  else if c = 't' then '\t'
  else c

/-- Whether a string-literal body ever reaches a closing quote (escape pairs
crossed as units; a trailing lone backslash does not close). -/
def hasClosingQuote : List Char → Bool
  | [] => false
  | c :: rest =>
    if c = '"' then true
    else if c = '\\' then
      match rest with
      | [] => false
      | _ :: rest' => hasClosingQuote rest'
    else hasClosingQuote rest

theorem parseStringBody_error_of_no_quote :
    ∀ (cs : List Char), hasClosingQuote cs = false → ∃ e, parseStringBody cs = .error e
  | [], _ => ⟨"Unterminated string literal in AppleScript result", rfl⟩
  | c :: rest, h => by
    unfold hasClosingQuote at h
    by_cases hq : c = '"'
    · rw [if_pos hq] at h
      exact absurd h (by simp)
    · rw [if_neg hq] at h
      by_cases hb : c = '\\'
      · rw [if_pos hb] at h
        cases rest with
        | nil =>
          refine ⟨"Unexpected end of AppleScript result", ?_⟩
          unfold parseStringBody
          rw [if_neg hq, if_pos hb]
        | cons x rest' =>
          obtain ⟨e, he⟩ := parseStringBody_error_of_no_quote rest' h
          refine ⟨e, ?_⟩
          unfold parseStringBody
          rw [if_neg hq, if_pos hb]
          show (parseStringBody rest').map (fun p => (escChar x :: p.1, p.2)) = Except.error e
          rw [he]
          rfl
      · rw [if_neg hb] at h
        obtain ⟨e, he⟩ := parseStringBody_error_of_no_quote rest h
        refine ⟨e, ?_⟩
        unfold parseStringBody
        rw [if_neg hq, if_neg hb, he]
        rfl

/-! ## Claim theorems -/

/-- C1. For every non-empty brace-delimited collection, the classifier scans
forward at nesting depth 0, fully skipping string literals (respecting
backslash escapes) and nested brace groups; it classifies the collection as a
record exactly when a `:` is encountered before any `,` or the matching `}`,
and as a list when a `,` or `}` is encountered first (the source classifier
coincides with the spec's single-scan state machine `classifySpec`); the
input `{}` parses immediately to an empty list — in `parseRun` the `}` branch
returns before the classifier branch is reached. -/
theorem classifier_matches_spec_and_empty_braces :
    (∀ cs : List Char, isRecordCollection 0 cs = classifySpec cs) ∧
      parseAppleScriptResult "\x7b\x7d".toList = .ok (.list []) :=
  ⟨fun cs => isRecordCollection_eq_classifySpec cs, rfl⟩

/-- C4 (counterexample). `coerceString` on a container (here a `Record`) does
not return the fallback: it applies JavaScript `String()` and yields
`"[object Object]"`. -/
theorem coerceString_container_not_fallback :
    coerceString (some (.record [("a", .num ⟨1, 0⟩)])) "f" = "[object Object]" ∧
      "[object Object]" ≠ "f" :=
  ⟨rfl, by decide⟩

/-- C4 (amended). `coerceString(v, f)` returns `f` when `v` is Null or
absent, and the canonical text form when `v` is a scalar; a container is NOT
mapped to the fallback but through the host `String()` conversion — a List
becomes its elements' text forms joined by commas, a Record becomes
`"[object Object]"`. -/
theorem coerceString_cases (fb : String) :
    coerceString none fb = fb ∧
      coerceString (some .null) fb = fb ∧
      (∀ s, coerceString (some (.str s)) fb = s) ∧
      (∀ b, coerceString (some (.bool b)) fb = if b then "true" else "false") ∧
      (∀ q, coerceString (some (.num q)) fb = numToString q) ∧
      coerceString (some .nan) fb = "NaN" ∧
      (∀ l, coerceString (some (.list l)) fb = String.intercalate "," (jsToStringElems l)) ∧
      (∀ fields, coerceString (some (.record fields)) fb = "[object Object]") :=
  ⟨rfl, rfl, fun _ => rfl, fun b => by cases b <;> rfl, fun _ => rfl, rfl,
    fun _ => rfl, fun _ => rfl⟩

/-- A closed instance of the amended C4 statement. -/
theorem coerceString_cases_witness :
    coerceString none "x" = "x" ∧ coerceString (some (.list [.num ⟨1, 0⟩, .num ⟨2, 0⟩])) "x" = "1,2" :=
  ⟨(coerceString_cases "x").1, ((coerceString_cases "x").2.2.2.2.2.2.1 [.num ⟨1, 0⟩, .num ⟨2, 0⟩]).trans rfl⟩

/-- C6. After the parser consumes the single top-level value, any remaining
non-whitespace input is a ParseError (trailing garbage); and the optional
leading diagnostic marker `"=> "` is stripped before parsing starts, so a
non-blank payload that does not itself begin with `=>` parses identically
with or without the marker. -/
theorem trailing_garbage_and_arrow_marker :
    (∀ (cs : List Char) (v : ASValue) (rem : List Char),
        parseValueFuel (cs.length + 1) (skipWhitespace cs) = .ok (v, rem) →
        (skipWhitespace rem).isEmpty = false →
        parseTop cs = .error "Unexpected trailing content in AppleScript result") ∧
      (∀ t : List Char, jsTrim t ≠ [] →
        (['=', '>'] : List Char).isPrefixOf (jsTrim t) = false →
        parseAppleScriptResult ('=' :: '>' :: ' ' :: t) = parseAppleScriptResult t) := by
  constructor
  · intro cs v rem h1 h2
    unfold parseTop
    rw [h1]
    show (if (skipWhitespace rem).isEmpty = true then Except.ok v
          else Except.error "Unexpected trailing content in AppleScript result") = _
    rw [h2]
    rfl
  · intro t h1 h2
    apply parseAppleScriptResult_arrowMarker t h1
    intro rest hc
    rw [hc] at h2
    simp [List.isPrefixOf] at h2

/-- A closed instance of C6: `"1 2"` has trailing garbage; `"=> 5"` parses
like `"5"`. -/
theorem trailing_garbage_and_arrow_marker_witness :
    parseTop "1 2".toList = .error "Unexpected trailing content in AppleScript result" ∧
      parseAppleScriptResult "=> 5".toList = parseAppleScriptResult "5".toList :=
  ⟨trailing_garbage_and_arrow_marker.1 "1 2".toList (.num ⟨1, 0⟩) [' ', '2'] rfl rfl,
    trailing_garbage_and_arrow_marker.2 "5".toList (by decide) (by decide)⟩

theorem parseStringBody_quote (rest : List Char) :
    parseStringBody ('"' :: rest) = .ok ([], rest) := by
  unfold parseStringBody
  rw [if_pos rfl]

/-- C7. Inside a double-quoted string the parser interprets the escapes
`\"`, `\\`, `\n`, `\r`, `\t` as the corresponding characters and passes any
other escaped character through literally (the one-escape literal
`"\c"` parses to exactly `escSpec c`); a string that reaches end of input
without a closing quote is a ParseError. -/
theorem string_escapes_and_unterminated :
    (∀ (c : Char) (rest : List Char),
        parseString ('"' :: '\\' :: c :: '"' :: rest) = .ok (String.mk [escSpec c], rest)) ∧
      (∀ cs : List Char, hasClosingQuote cs = false → ∃ e, parseStringBody cs = .error e) :=
  ⟨fun c rest => by simp [parseString, parseStringBody, escChar, escSpec, parseStringBody_quote, Except.map],
    parseStringBody_error_of_no_quote⟩

/-- A closed instance of C7: `"\n"` decodes to a newline, an unknown escape
passes through, and `"abc` (no closing quote) is an error. -/
theorem string_escapes_and_unterminated_witness :
    parseString "\"\\n\"".toList = .ok ("\n", []) ∧
      parseString "\"\\q\"".toList = .ok ("q", []) ∧
      ∃ e, parseStringBody "abc".toList = .error e :=
  ⟨string_escapes_and_unterminated.1 'n' [], string_escapes_and_unterminated.1 'q' [],
    string_escapes_and_unterminated.2 "abc".toList rfl⟩

/-- C8. The note mapper sorts its output descending by the recency key:
modification time, falling back to creation time when modification time is
absent, and to zero when both are absent (`noteSortTime`). -/
theorem notes_sorted_descending (raw : ASValue) :
    List.Sorted (fun a b : Note => noteSortTime b ≤ noteSortTime a) (mapNoteRecords raw) :=
  List.sorted_insertionSort noteOrder _

theorem coerceString_of_ne_null (v : ASValue) (h : v ≠ .null) (fb : String) :
    coerceString (some v) fb = jsToString v := by
  cases v with
  | null => exact absurd rfl h
  | str s => rfl
  | bool b => rfl
  | num q => rfl
  | nan => rfl
  | list l => rfl
  | record fields => rfl

theorem coerceString_empty_error_iff (o : Option ASValue) :
    coerceString o "" = "error" ↔
      ∃ s, o = some s ∧ s ≠ .null ∧ jsToString s = "error" := by
  cases o with
  | none =>
    constructor
    · intro h; exact absurd h (by decide)
    · rintro ⟨s, hs, -, -⟩; exact Option.noConfusion hs
  | some v =>
    by_cases hn : v = ASValue.null
    · subst hn
      constructor
      · intro h; exact absurd h (by decide)
      · rintro ⟨s, hs, hne, -⟩
        injection hs with hs
        exact absurd hs.symm hne
    · rw [coerceString_of_ne_null v hn]
      constructor
      · intro h; exact ⟨v, rfl, hn, h⟩
      · rintro ⟨s, hs, -, he⟩
        injection hs with hs
        rw [hs]; exact he

/-- C2 (counterexample to the claim as stated). A Record whose `status` key
holds the one-element LIST `["error"]` — not the string `"error"` — is still
reported as a failure, because the check compares the `coerceString`-coerced
form of the field and JavaScript stringifies `["error"]` to `"error"`. -/
theorem status_envelope_list_counterexample :
    fetchNotesPipeline "X" 50 (.record [("status", .list [.str "error"])]) =
        .error "Notes operation failed." ∧
      ASValue.list [.str "error"] ≠ ASValue.str "error" :=
  ⟨rfl, fun h => ASValue.noConfusion h⟩

theorem noteStatusFailure_record (folder : String) (fields : List (String × ASValue)) :
    noteStatusFailure folder (.record fields) =
      if coerceString (assocGet fields "status") "" = "error" then
        some (noteFailureMessage folder (coerceString (assocGet fields "reason") ""))
      else none := rfl

theorem fetchNotesPipeline_eq (folder : String) (maxNotes : Nat) (v : ASValue) :
    fetchNotesPipeline folder maxNotes v =
      match noteStatusFailure folder v with
      | some message => .error message
      | none => .ok ((mapNoteRecords v).take maxNotes) := rfl

/-- C2 (amended). The pipeline reports a failure if and only if the parsed
top-level value is a Record (not a List) whose key `status` COERCES to the
exact string `"error"` — i.e. holds a non-Null value whose JavaScript string
form is `"error"`, the string `"error"` being the principal case; the detail
is read from key `reason` (empty/absent falling back to a generic message);
and when no failure is detected the domain mapper runs on the value. -/
theorem status_envelope_detection (folder : String) (maxNotes : Nat) (v : ASValue) :
    ((∃ e, fetchNotesPipeline folder maxNotes v = .error e) ↔
      ∃ fields s, v = .record fields ∧ assocGet fields "status" = some s ∧
        s ≠ .null ∧ jsToString s = "error") ∧
    (noteStatusFailure folder v = none →
      fetchNotesPipeline folder maxNotes v = .ok ((mapNoteRecords v).take maxNotes)) ∧
    (∀ fields, v = .record fields →
      coerceString (assocGet fields "status") "" = "error" →
      fetchNotesPipeline folder maxNotes v =
        .error (noteFailureMessage folder (coerceString (assocGet fields "reason") ""))) := by
  refine ⟨?_, ?_, ?_⟩
  · cases v with
    | record fields =>
      rw [fetchNotesPipeline_eq, noteStatusFailure_record]
      by_cases h : coerceString (assocGet fields "status") "" = "error"
      · rw [if_pos h]
        constructor
        · intro _
          obtain ⟨s, hs, hne, he⟩ := (coerceString_empty_error_iff _).1 h
          exact ⟨fields, s, rfl, hs, hne, he⟩
        · intro _
          exact ⟨noteFailureMessage folder (coerceString (assocGet fields "reason") ""), rfl⟩
      · rw [if_neg h]
        constructor
        · rintro ⟨e, he⟩
          exact Except.noConfusion he
        · rintro ⟨fields', s, hf, hs, hne, he⟩
          injection hf with hf
          subst hf
          exact absurd ((coerceString_empty_error_iff _).2 ⟨s, hs, hne, he⟩) h
    | null =>
      constructor
      · rintro ⟨e, he⟩; exact Except.noConfusion he
      · rintro ⟨fields, s, hf, -⟩; exact ASValue.noConfusion hf
    | bool b =>
      constructor
      · rintro ⟨e, he⟩; exact Except.noConfusion he
      · rintro ⟨fields, s, hf, -⟩; exact ASValue.noConfusion hf
    | num q =>
      constructor
      · rintro ⟨e, he⟩; exact Except.noConfusion he
      · rintro ⟨fields, s, hf, -⟩; exact ASValue.noConfusion hf
    | nan =>
      constructor
      · rintro ⟨e, he⟩; exact Except.noConfusion he
      · rintro ⟨fields, s, hf, -⟩; exact ASValue.noConfusion hf
    | str s =>
      constructor
      · rintro ⟨e, he⟩; exact Except.noConfusion he
      · rintro ⟨fields, s', hf, -⟩; exact ASValue.noConfusion hf
    | list l =>
      constructor
      · rintro ⟨e, he⟩; exact Except.noConfusion he
      · rintro ⟨fields, s, hf, -⟩; exact ASValue.noConfusion hf
  · intro h
    rw [fetchNotesPipeline_eq, h]
  · intro fields hf h
    subst hf
    rw [fetchNotesPipeline_eq, noteStatusFailure_record, if_pos h]

/-- A closed instance of the amended C2: an explicit `status:"error"` record
fails, and a list payload reaches the mapper untouched. -/
theorem status_envelope_detection_witness :
    (∃ e, fetchNotesPipeline "X" 50 (.record [("status", .str "error")]) = .error e) ∧
      fetchNotesPipeline "X" 50 (.list []) = .ok [] := by
  constructor
  · exact (status_envelope_detection "X" 50 _).1.mpr
      ⟨[("status", .str "error")], .str "error", rfl, rfl, fun h => ASValue.noConfusion h, rfl⟩
  · exact ((status_envelope_detection "X" 50 (.list [])).2.1 rfl).trans rfl

/-- C3 (counterexample to the claim as stated). A malformed `name` field
holding a Record is not replaced by its documented fallback
`"Untitled Note"`: the mapper stringifies it to `"[object Object]"`
(mapping still does not raise, and the batch entry is still produced). -/
theorem note_container_field_counterexample :
    mapNoteRecords (.list [.record [("name", .record [])]]) =
        [{ name := "[object Object]", content := "", folderName := none, id := none,
           creationDate := none, modificationDate := none }] ∧
      "[object Object]" ≠ "Untitled Note" :=
  ⟨rfl, by decide⟩

/-- C3 (amended). The mappers are total: every object-like record of the
batch yields exactly one output entity (no input aborts the batch); a MISSING
(absent or Null) field is replaced by its documented fallback; but a
malformed field holding a container is coerced through the host string
conversion (e.g. a Record becomes `"[object Object]"`) rather than replaced
by the fallback. -/
theorem mapper_totality_and_fallbacks :
    (∀ xs : List ASValue,
        (mapNoteRecords (.list xs)).length = (xs.filter jsIsObjLike).length) ∧
    (∀ r, (jsGet r "name" = none ∨ jsGet r "name" = some .null) →
      (mapNote r).name = "Untitled Note") ∧
    (∀ r, (jsGet r "content" = none ∨ jsGet r "content" = some .null) →
      (mapNote r).content = "") ∧
    (∀ r, (jsGet r "title" = none ∨ jsGet r "title" = some .null) →
      ((mapEvent r).2).title = "Untitled Event") ∧
    (∀ r, (jsGet r "calendarName" = none ∨ jsGet r "calendarName" = some .null) →
      ((mapEvent r).2).calendarName = "Unknown Calendar") ∧
    (∀ (xs : List ASValue) (r : ASValue), r ∈ xs.filter jsIsObjLike → (mapEvent r).1 = "" →
      (mapEvent r).2 ∈ mapEventRecords (.list xs)) ∧
    (∀ r fields, jsGet r "name" = some (.record fields) →
      (mapNote r).name = "[object Object]") := by
  refine ⟨?_, ?_, ?_, ?_, ?_, ?_, ?_⟩
  · intro xs
    show (List.insertionSort noteOrder ((xs.filter jsIsObjLike).map mapNote)).length = _
    rw [(List.perm_insertionSort noteOrder _).length_eq, List.length_map]
  · intro r h
    rcases h with h | h <;> simp [mapNote, h, coerceString]
  · intro r h
    rcases h with h | h <;> simp [mapNote, h, coerceString]
  · intro r h
    rcases h with h | h <;> simp [mapEvent, h, coerceString]
  · intro r h
    rcases h with h | h <;> simp [mapEvent, h, coerceString]
  · intro xs r hr hid
    rw [mapEventRecords_eq_spec]
    rw [(List.perm_insertionSort eventOrder _).mem_iff]
    apply List.mem_append_right
    rw [List.mem_map]
    refine ⟨mapEvent r, ?_, rfl⟩
    rw [List.mem_filter]
    exact ⟨List.mem_map_of_mem mapEvent hr, by simp [hid]⟩
  · intro r fields h
    simp [mapNote, h, coerceString, jsToString]

/-- A closed instance of the amended C3: an empty record maps with the name
fallback, a garbage scalar in the batch is skipped but the record survives,
and an id-less mapped event appears in the output. -/
theorem mapper_totality_witness :
    (mapNote (.record [])).name = "Untitled Note" ∧
      (mapNoteRecords (.list [.str "x", .record []])).length = 1 ∧
      (mapEvent (.record [])).2 ∈ mapEventRecords (.list [.record []]) := by
  refine ⟨mapper_totality_and_fallbacks.2.1 (.record []) (Or.inl rfl),
    (mapper_totality_and_fallbacks.1 [.str "x", .record []]).trans rfl,
    mapper_totality_and_fallbacks.2.2.2.2.2.1 [.record []] (.record []) ?_ rfl⟩
  rw [show (List.filter jsIsObjLike [ASValue.record []]) = [ASValue.record []] from rfl]
  exact List.mem_singleton.mpr rfl

/-- C5. In the event mapper, records deduplicate by non-empty id with last
write winning at the first-occurrence position (`dedupPairs`, the spec-side
restatement); id-less records are appended after all deduplicated ones in
encountered order; the final sequence is stably sorted ascending by
`getEventSortKey`, whose terminal sentinel `Number.MAX_SAFE_INTEGER` applies
when neither start nor end time parses; and the spec's dedup test — two
records sharing id `"E1"` with different titles — collapses to exactly the
later entry. -/
theorem event_dedup_append_sort :
    (∀ raw : ASValue,
        mapEventRecords raw =
          List.insertionSort eventOrder
            ((dedupPairs
                (((eventRecordsOf raw).map mapEvent).filter (fun p => p.1 ≠ ""))).map
                Prod.snd ++
              (((eventRecordsOf raw).map mapEvent).filter (fun p => p.1 = "")).map Prod.snd) ∧
        List.Sorted eventOrder (mapEventRecords raw)) ∧
      mapEventRecords
          (.list [.record [("id", .str "E1"), ("title", .str "A")],
            .record [("id", .str "E1"), ("title", .str "B")]]) =
        [{ id := "E1", title := "B", location := none, notes := none, startDate := none,
           endDate := none, calendarName := "Unknown Calendar", isAllDay := false,
           url := none }] := by
  constructor
  · intro raw
    refine ⟨mapEventRecords_eq_spec raw, ?_⟩
    show List.Sorted eventOrder (List.insertionSort eventOrder _)
    exact List.sorted_insertionSort eventOrder _
  · rfl

/-- C9. In the email mapper, a record whose coerced subject and sender are
both empty never reaches the output; a record with empty subject but
non-empty sender is kept, and so is one with non-empty subject but empty
sender. -/
theorem email_drop_rule :
    (∀ (nowMs : Int) (raw : ASValue) (fb : Option String) (e : EmailMessage),
        e ∈ Mail.mapEmailRecords nowMs raw fb → ¬(e.subject = "" ∧ e.sender = "")) ∧
    (∀ (nowMs : Int) (fb : Option String) (xs : List ASValue) (r : ASValue),
        r ∈ xs.filter jsIsObjLike →
        (Mail.mapEmail nowMs fb r).subject = "" → (Mail.mapEmail nowMs fb r).sender ≠ "" →
        Mail.mapEmail nowMs fb r ∈ Mail.mapEmailRecords nowMs (.list xs) fb) ∧
    (∀ (nowMs : Int) (fb : Option String) (xs : List ASValue) (r : ASValue),
        r ∈ xs.filter jsIsObjLike →
        (Mail.mapEmail nowMs fb r).subject ≠ "" → (Mail.mapEmail nowMs fb r).sender = "" →
        Mail.mapEmail nowMs fb r ∈ Mail.mapEmailRecords nowMs (.list xs) fb) := by
  refine ⟨?_, ?_, ?_⟩
  · intro nowMs raw fb e he
    cases raw with
    | list xs =>
      have hmem := (List.mem_filter.1 he).2
      intro hc
      rw [hc.1, hc.2] at hmem
      simp at hmem
    | null => simp [Mail.mapEmailRecords] at he
    | bool b => simp [Mail.mapEmailRecords] at he
    | num q => simp [Mail.mapEmailRecords] at he
    | nan => simp [Mail.mapEmailRecords] at he
    | str s => simp [Mail.mapEmailRecords] at he
    | record fields => simp [Mail.mapEmailRecords] at he
  · intro nowMs fb xs r hr h1 h2
    show _ ∈ List.filter _ _
    rw [List.mem_filter]
    exact ⟨List.mem_map_of_mem _ hr, by simp [h2]⟩
  · intro nowMs fb xs r hr h1 h2
    show _ ∈ List.filter _ _
    rw [List.mem_filter]
    exact ⟨List.mem_map_of_mem _ hr, by simp [h1]⟩

/-- A closed instance of C9: an email-shaped record with blank subject and
non-blank sender is kept. -/
theorem email_drop_rule_witness :
    Mail.mapEmail 0 none (.record [("subject", .str ""), ("sender", .str "s")]) ∈
      Mail.mapEmailRecords 0 (.list [.record [("subject", .str ""), ("sender", .str "s")]])
        none := by
  refine email_drop_rule.2.1 0 none _ _ ?_ rfl (by decide)
  rw [show (List.filter jsIsObjLike [ASValue.record [("subject", .str ""), ("sender", .str "s")]]) =
    [ASValue.record [("subject", .str ""), ("sender", .str "s")]] from rfl]
  exact List.mem_singleton.mpr rfl

theorem lastValueFor_mem {ps : List (String × CalendarEvent)} {k : String} {w : CalendarEvent}
    (h : lastValueFor ps k = some w) : (k, w) ∈ ps := by
  unfold lastValueFor at h
  have hw := List.mem_of_mem_getLast? h
  rw [List.mem_map] at hw
  obtain ⟨p, hp, hpw⟩ := hw
  rw [List.mem_filter] at hp
  have hk : p.1 = k := by simpa using hp.2
  have hpe : p = (k, w) := by
    cases p
    simp_all
  rw [← hpe]
  exact hp.1

theorem mem_dedupPairs :
    ∀ (ps : List (String × CalendarEvent)) (q : String × CalendarEvent),
      q ∈ dedupPairs ps → q ∈ ps
  | [], q => by simp [dedupPairs]
  | (k, v) :: ps', q => by
    intro h
    rw [dedupPairs] at h
    rcases List.mem_cons.1 h with h1 | h2
    · cases hl : lastValueFor ps' k with
      | none =>
        rw [hl] at h1
        exact h1 ▸ List.mem_cons_self _ _
      | some w =>
        rw [hl] at h1
        exact h1 ▸ List.mem_cons_of_mem _ (lastValueFor_mem hl)
    · have := mem_dedupPairs (ps'.filter (fun p => ¬ p.1 = k)) q h2
      exact List.mem_cons_of_mem _ (List.mem_of_mem_filter this)
termination_by ps _ => ps.length
decreasing_by
  have := List.length_filter_le (fun p => ¬ p.1 = k) ps'
  simp only [List.length_cons]
  omega

theorem mem_mapEventRecords {raw : ASValue} {e : CalendarEvent}
    (h : e ∈ mapEventRecords raw) : ∃ r ∈ eventRecordsOf raw, e = (mapEvent r).2 := by
  rw [mapEventRecords_eq_spec] at h
  rw [(List.perm_insertionSort eventOrder _).mem_iff] at h
  rcases List.mem_append.1 h with h | h
  · rw [List.mem_map] at h
    obtain ⟨q, hq, he⟩ := h
    have hq' := List.mem_of_mem_filter (mem_dedupPairs _ _ hq)
    rw [List.mem_map] at hq'
    obtain ⟨r, hr, hrq⟩ := hq'
    exact ⟨r, hr, by rw [← he, ← hrq]⟩
  · rw [List.mem_map] at h
    obtain ⟨q, hq, he⟩ := h
    have hq' := List.mem_of_mem_filter hq
    rw [List.mem_map] at hq'
    obtain ⟨r, hr, hrq⟩ := hq'
    exact ⟨r, hr, by rw [← he, ← hrq]⟩

theorem mapEvent_id_ne (r : ASValue) : ((mapEvent r).2).id ≠ "" := by
  show (if coerceString (jsGet r "id") "" = "" then
      coerceString (jsGet r "title") "Untitled Event" ++ "-" ++
        ((toIsoFromUnix (jsGet r "startDate")).getD "unknown") ++ "-" ++
        coerceString (jsGet r "calendarName") "Unknown Calendar"
    else coerceString (jsGet r "id") "") ≠ ""
  by_cases hid : coerceString (jsGet r "id") "" = ""
  · rw [if_pos hid]
    intro hc
    have := congrArg String.length hc
    simp [String.length_append] at this
    exact absurd this.1.1.1.2 (by decide)
  · rw [if_neg hid]
    exact hid

/-- C10. Every CalendarEvent produced by the event mapper has a non-empty
id: an empty or absent source id is replaced by the synthetic
`title-start-calendar` identifier, which is never the empty string. -/
theorem event_ids_nonempty (raw : ASValue) (e : CalendarEvent)
    (h : e ∈ mapEventRecords raw) : e.id ≠ "" := by
  obtain ⟨r, -, he⟩ := mem_mapEventRecords h
  rw [he]
  exact mapEvent_id_ne r

/-- A closed instance of C10: the event built from an empty record carries
the synthetic non-empty id. -/
theorem event_ids_nonempty_witness : ((mapEvent (.record [])).2).id ≠ "" := by
  refine event_ids_nonempty (.list [.record []]) _ ?_
  rw [show mapEventRecords (.list [.record []]) = [(mapEvent (.record [])).2] from rfl]
  exact List.mem_singleton.mpr rfl
